import Mathlib

/-!
# Token transfer settlement engine: shallow embedding and verification

This file embeds the core of the `mnee-cli` token transfer settlement engine
(`MNEEService.transfer`, `MNEEService.getUtxos`, `MNEEService.getBalance` from
`node_modules/mnee/src/mneeService.ts`, and `pollForTxStatus` from `src/cli.ts`)
as Lean definitions, and proves or refutes the specification's claims about it.

Network effects are modelled by oracle arguments: the result a `fetch` would
have produced is passed in as an `Option`/`Except` value, and the sequence of
outbound calls the code performs is returned explicitly as a trace.  JS decimal
amounts are idealised as rationals, `Math.round` as floor of `q + 1/2`
(round half toward positive infinity), and JS integers as `Int`.
-/

set_option autoImplicit false

namespace Mnee

/-- One fee tier of the config's fee schedule (`config.fees` entry
`{min, max, fee}`). -/
structure FeeTier where
  min : Int
  max : Int
  fee : Int
  deriving DecidableEq, Repr

/-- The token config fetched by `getConfig` (`MNEEConfig`), restricted to the
fields the settlement path reads. -/
structure MNEEConfig where
  approver : String
  feeAddress : String
  burnAddress : String
  fees : List FeeTier
  decimals : Nat
  tokenId : String
  deriving DecidableEq, Repr

/-- A funding source (`MNEEUtxo`), restricted to the fields the settlement path
reads: `txid`, `vout`, `owners`, `data.bsv21.op` and `data.bsv21.amt`. -/
structure MNEEUtxo where
  txid : String
  vout : Nat
  owners : List String
  op : String
  amt : Int
  deriving DecidableEq, Repr

/-- One entry of a transfer request (`SendMNEE`): recipient address and
decimal amount (a JS number, idealised as a rational). -/
structure SendMNEE where
  address : String
  amount : ℚ
  deriving DecidableEq

/-- JS `utxo.owners[0]`, with a missing entry collapsed to the empty string
(both `undefined` and `""` are falsy, which is all the settlement path
observes about it). -/
def owner0 (u : MNEEUtxo) : String :=
  u.owners.headD ""

/-- JS string-typed `a || b`: `a` when truthy (non-empty), else `b`. -/
def jsOr (a b : String) : String :=
  if a = "" then b else a

/-- JS `Math.round` on an idealised (rational) number: round half toward
positive infinity, which is Mathlib's `round` (`round x = ⌊x + 1/2⌋`). -/
def jsRound (q : ℚ) : Int :=
  round q

/-- JS `String.prototype.toLowerCase()`, restricted to ASCII: lower-case every
character. Adequate for the operation-kind strings compared here. -/
def strToLower (s : String) : String :=
  ⟨s.data.map Char.toLower⟩

/-- `MNEEService.toAtomicAmount`: `Math.round(amount * 10 ** decimals)`. -/
def toAtomicAmount (amount : ℚ) (decimals : Nat) : Int :=
  jsRound (amount * 10 ^ decimals)

/-- The default operation filter of `getUtxos`:
`ops = ["transfer", "deploy+mint"]`. -/
def defaultOps : List String :=
  ["transfer", "deploy+mint"]

/-- The post-fetch filter of `getUtxos`: when `ops` is non-empty, keep the
utxos whose `data.bsv21.op.toLowerCase()` is listed in `ops`. -/
def filterUtxos (ops : List String) (data : List MNEEUtxo) : List MNEEUtxo :=
  if ops.length ≠ 0 then
    data.filter (fun u => ops.contains (strToLower u.op))
  else data

/-- `MNEEService.getUtxos`: the server response is the oracle `fetchResult`;
on success the post-fetch `ops` filter is applied, and on a transport error
the `catch` block logs and returns the empty list. -/
def getUtxos (ops : List String) (fetchResult : Except String (List MNEEUtxo)) :
    List MNEEUtxo :=
  match fetchResult with
  | Except.ok data => filterUtxos ops data
  | Except.error _ => []

/-- The reducer inside `getBalance`: sum `data.bsv21.amt` over exactly the
utxos whose `data.bsv21.op === "transfer"` (case-sensitive). -/
def balanceAmount (utxos : List MNEEUtxo) : Int :=
  utxos.foldl (fun acc u => if u.op = "transfer" then acc + u.amt else acc) 0

/-- `MNEEService.getBalance` (atomic `amount` field): config fetch failure is
caught and yields `0`; otherwise the default-filtered utxos are summed by
`balanceAmount`.  A transport error in the utxo fetch yields the empty list
(see `getUtxos`) and hence balance `0`. -/
def getBalance (configResult : Option MNEEConfig)
    (fetchResult : Except String (List MNEEUtxo)) : Int :=
  match configResult with
  | none => 0
  | some _ => balanceAmount (getUtxos defaultOps fetchResult)

/-- The reducer computing `totalUtxoAmount` in `transfer`:
`utxos.reduce((sum, u) => sum + (u.data.bsv21.amt || 0), 0)`. -/
def sumAmt (utxos : List MNEEUtxo) : Int :=
  utxos.foldl (fun s u => s + u.amt) 0

/-- Total decimal amount of a request:
`request.reduce((sum, req) => sum + req.amount, 0)`. -/
def totalAmountOf (request : List SendMNEE) : ℚ :=
  request.foldl (fun s r => s + r.amount) 0

/-- The request's target atomic amount
(`totalAtomicTokenAmount = toAtomicAmount(totalAmount, config.decimals)`). -/
def targetOf (request : List SendMNEE) (config : MNEEConfig) : Int :=
  toAtomicAmount (totalAmountOf request) config.decimals

/-- The fee determination in `transfer`: fee `0` when some recipient address
equals `config.burnAddress`, otherwise the `fee` of the first tier of
`config.fees` whose `[min, max]` range contains the target atomic amount;
`none` when no tier matches. -/
def feeOf (request : List SendMNEE) (config : MNEEConfig) (target : Int) :
    Option Int :=
  if request.any (fun r => r.address = config.burnAddress) then some 0
  else
    (config.fees.find? (fun f => decide (f.min ≤ target ∧ target ≤ f.max))).map
      (fun f => f.fee)

/-- The funding-source consumption loop of `transfer`
(`while (tokensIn < totalAtomicTokenAmount + fee) { const utxo = utxos.shift(); … }`):
starting from accumulated amount `tokensIn`, shift utxos off the front of the
list until the accumulated amount reaches `need`; return the consumed utxos in
consumption order together with the final accumulated amount, or `none` when
the list is exhausted while still short of `need`. -/
def selectLoop (need : Int) : List MNEEUtxo → Int → Option (List MNEEUtxo × Int)
  | [], tokensIn =>
    if tokensIn < need then none else some ([], tokensIn)
  | u :: rest, tokensIn =>
    if tokensIn < need then
      match selectLoop need rest (tokensIn + u.amt) with
      | none => none
      | some (sel, tin) => some (u :: sel, tin)
    else some ([], tokensIn)

/-- The change address computed incrementally in the consumption loop
(`changeAddress = changeAddress || utxo.owners[0]`, starting from `""`). -/
def changeAddrOf (sel : List MNEEUtxo) : String :=
  sel.foldl (fun acc u => jsOr acc (owner0 u)) ""

/-- Spec-side restatement of the change destination (for comparison with the
code's `changeAddrOf` fold): the owner address of the first consumed funding
source whose owner string is non-empty, and `""` when every consumed source
has an empty owner. -/
def firstOwnerSpec : List MNEEUtxo → String
  | [] => ""
  | u :: rest => if owner0 u = "" then firstOwnerSpec rest else owner0 u

/-- One transaction output of the assembled transfer, reduced to the data the
inscription carries: destination address and atomic token amount. -/
structure TxOutput where
  address : String
  amt : Int
  deriving DecidableEq, Repr

/-- The assembled transfer before signing: consumed funding sources (one input
each, in order), per-input signing addresses, change address, fee, change and
the ordered output list. -/
structure TransferPlan where
  selected : List MNEEUtxo
  signingAddresses : List String
  changeAddress : String
  fee : Int
  change : Int
  outputs : List TxOutput
  deriving DecidableEq, Repr

/-- The output list assembled by `transfer`: one inscription output per
recipient in request order, then the fee output when `fee > 0`, then the
change output when `change > 0`. -/
def outputsOf (config : MNEEConfig) (request : List SendMNEE)
    (fee change : Int) (changeAddress : String) : List TxOutput :=
  request.map (fun r => ⟨r.address, toAtomicAmount r.amount config.decimals⟩)
    ++ (if 0 < fee then [⟨config.feeAddress, fee⟩] else [])
    ++ (if 0 < change then [⟨changeAddress, change⟩] else [])

/-- The assembled plan for a completed selection `(sel, tokensIn)`:
`change = tokensIn - target - fee`, change address and outputs as in the
source. -/
def buildPlan (config : MNEEConfig) (request : List SendMNEE)
    (target fee tokensIn : Int) (sel : List MNEEUtxo) : TransferPlan :=
  { selected := sel
    signingAddresses := sel.map owner0
    changeAddress := changeAddrOf sel
    fee := fee
    change := tokensIn - target - fee
    outputs := outputsOf config request fee (tokensIn - target - fee)
      (changeAddrOf sel) }

/-- An outbound network call performed by `transfer`, in order. -/
inductive NetCall where
  | configFetch
  | utxoFetch
  | beefFetch (txid : String)
  deriving DecidableEq, Repr

/-- Result of the `transfer` pipeline up to transaction assembly: either the
assembled plan or the error message the source returns. -/
inductive TransferResult where
  | ok (plan : TransferPlan)
  | error (msg : String)
  deriving DecidableEq, Repr

/-- `MNEEService.transfer` up to transaction assembly (config fetch,
validation, utxo fetch, balance pre-check, fee determination, funding-source
consumption, output construction), together with the trace of outbound
network calls it performs.  The config fetch and the utxo fetch are oracles;
the per-consumed-source ancestor (`fetchBeef`) calls appear in the trace.
Error strings are the source's:
`"Config not fetched"`, `"Invalid amount"`, `"Insufficient MNEE balance"`,
`"Fee ranges inadequate"`. -/
def transfer (configResult : Option MNEEConfig)
    (utxoFetch : Except String (List MNEEUtxo)) (request : List SendMNEE) :
    List NetCall × TransferResult :=
  match configResult with
  | none => ([NetCall.configFetch], TransferResult.error "Config not fetched")
  | some config =>
    if totalAmountOf request ≤ 0 then
      ([NetCall.configFetch], TransferResult.error "Invalid amount")
    else
      let target := targetOf request config
      let us := getUtxos defaultOps utxoFetch
      if sumAmt us < target then
        ([NetCall.configFetch, NetCall.utxoFetch],
          TransferResult.error "Insufficient MNEE balance")
      else
        match feeOf request config target with
        | none =>
          ([NetCall.configFetch, NetCall.utxoFetch],
            TransferResult.error "Fee ranges inadequate")
        | some fee =>
          match selectLoop (target + fee) us 0 with
          | none =>
            ([NetCall.configFetch, NetCall.utxoFetch]
              ++ us.map (fun u => NetCall.beefFetch u.txid),
              TransferResult.error "Insufficient MNEE balance")
          | some (sel, tokensIn) =>
            ([NetCall.configFetch, NetCall.utxoFetch]
              ++ sel.map (fun u => NetCall.beefFetch u.txid),
              TransferResult.ok (buildPlan config request target fee tokensIn sel))

/-- The polled settlement record (`TransferStatus`), reduced to the `status`
string the polling loop inspects and hands to the callback. -/
structure TransferStatus where
  status : String
  deriving DecidableEq, Repr

/-- Milliseconds slept between two consecutive status reads:
`await new Promise((resolve) => setTimeout(resolve, 1000))`. -/
def pollDelayMs : Nat := 1000

/-- Result of a run of `pollForTxStatus`: the returned status, or the thrown
timeout error message. -/
inductive PollResult where
  | ok (st : TransferStatus)
  | timeout (msg : String)
  deriving DecidableEq, Repr

/-- Outcome of a run of `pollForTxStatus`: the returned status or the timeout
error message, the statuses passed to the optional callback in order, and the
sleeps (in ms) performed between reads. -/
structure PollOutcome where
  result : PollResult
  callbackLog : List TransferStatus
  sleeps : List Nat
  deriving DecidableEq, Repr

/-- The body of `pollForTxStatus`'s `while (attempts < maxAttempts)` loop.
`read i` is the status returned by the `i`-th `getTxStatus` call (an oracle),
`hasCallback` whether `onStatusUpdate` was supplied, `fuel` the remaining
attempts (`maxAttempts - attempts`), `lastStatus` the last status passed to
the callback (JS `string | null`). -/
def pollAux (read : Nat → TransferStatus) (hasCallback : Bool) :
    Nat → Nat → Option String → List TransferStatus → List Nat → PollOutcome
  | 0, _, _, cbLog, sleeps =>
    ⟨PollResult.timeout "Transaction status polling timed out after 5 minutes",
      cbLog, sleeps⟩
  | fuel + 1, i, lastStatus, cbLog, sleeps =>
    let st := read i
    let fired := hasCallback && decide (some st.status ≠ lastStatus)
    let cbLog' := if fired then cbLog ++ [st] else cbLog
    let last' := if fired then some st.status else lastStatus
    if st.status ≠ "BROADCASTING" then ⟨PollResult.ok st, cbLog', sleeps⟩
    else pollAux read hasCallback fuel (i + 1) last' cbLog' (sleeps ++ [pollDelayMs])

/-- The cap on polling attempts (`maxAttempts = 60`). -/
def maxAttempts : Nat := 60

/-- `pollForTxStatus` from `src/cli.ts`: poll the ticket status up to
`maxAttempts` times, invoking the optional callback when the status differs
from the last observation, returning as soon as a read is not
`"BROADCASTING"`, sleeping `pollDelayMs` between reads, and failing with the
timeout error when the cap is exhausted. -/
def pollForTxStatus (read : Nat → TransferStatus) (hasCallback : Bool) :
    PollOutcome :=
  pollAux read hasCallback maxAttempts 0 none [] []

/-! ## Concrete fixtures for witnesses and counterexamples -/

/-- Fixture config: fee tier `{min: 0, max: 2_000_000, fee: 1000}`,
`decimals = 5` (the spec's worked scenario). -/
def wConfig : MNEEConfig := ⟨"approver-key", "FEE", "BURN", [⟨0, 2000000, 1000⟩], 5, "tok"⟩

/-- Fixture funding sources of atomic amounts `600_000` and `500_000`. -/
def wUtxos : List MNEEUtxo :=
  [⟨"t1", 0, ["A"], "transfer", 600000⟩, ⟨"t2", 1, ["B"], "transfer", 500000⟩]

/-- Fixture request: `10.00000` units to recipient `R`. -/
def wRequest : List SendMNEE := [⟨"R", 10⟩]

/-- The plan `transfer` assembles from the fixture: both sources consumed,
fee `1000`, change `99_000`, outputs `[recipient, fee, change]`. -/
def wPlan : TransferPlan :=
  ⟨wUtxos, ["A", "B"], "A", 1000, 99000,
    [⟨"R", 1000000⟩, ⟨"FEE", 1000⟩, ⟨"A", 99000⟩]⟩

/-- The network calls of the fixture run. -/
def wTrace : List NetCall :=
  [NetCall.configFetch, NetCall.utxoFetch, NetCall.beefFetch "t1",
    NetCall.beefFetch "t2"]

/-- Fixture request with two recipients: `4.00000` to `R1`, `6.00000` to
`R2`. -/
def w3Request : List SendMNEE := [⟨"R1", 4⟩, ⟨"R2", 6⟩]

/-- The plan `transfer` assembles for `w3Request` against `wConfig` and
`wUtxos`: outputs `[R1, R2, fee, change]`. -/
def w3Plan : TransferPlan :=
  ⟨wUtxos, ["A", "B"], "A", 1000, 99000,
    [⟨"R1", 400000⟩, ⟨"R2", 600000⟩, ⟨"FEE", 1000⟩, ⟨"A", 99000⟩]⟩

/-- A funding source whose `owners[0]` is the empty string. -/
def cxUtxo1 : MNEEUtxo := ⟨"c1", 0, [""], "transfer", 5⟩

/-- A funding source owned by `B`. -/
def cxUtxo2 : MNEEUtxo := ⟨"c2", 0, ["B"], "transfer", 7⟩

/-- Fixture config with `decimals = 0` and a zero-fee tier. -/
def cxConfig : MNEEConfig := ⟨"ap", "FEE", "BURN", [⟨0, 100, 0⟩], 0, "tok"⟩

/-- Fixture request of 10 atomic units. -/
def cxRequest : List SendMNEE := [⟨"R", 10⟩]

/-- The plan assembled from `cxUtxo1`/`cxUtxo2`: both consumed, change `2`
addressed to `"B"` (the second source's owner). -/
def cxPlan : TransferPlan :=
  ⟨[cxUtxo1, cxUtxo2], ["", "B"], "B", 0, 2, [⟨"R", 10⟩, ⟨"B", 2⟩]⟩

/-- Fixture config whose only fee tier is `[0, 100]` (fee `1`),
`decimals = 0`. -/
def c4Config : MNEEConfig := ⟨"ap", "FEE", "BURN", [⟨0, 100, 1⟩], 0, "tok"⟩

/-- A pool holding only 50 atomic units. -/
def c4Utxos : List MNEEUtxo := [⟨"s", 0, ["A"], "transfer", 50⟩]

/-- A request for 1000 atomic units: outside the only fee tier, and above the
pool's total. -/
def c4Request : List SendMNEE := [⟨"R", 1000⟩]

/-- Fixture utxo set mixing a `deploy+mint` source with a `transfer` source. -/
def bUtxos : List MNEEUtxo :=
  [⟨"d", 0, ["A"], "deploy+mint", 7⟩, ⟨"t", 1, ["A"], "transfer", 5⟩]

/-- A funding source whose operation kind is upper-case `"TRANSFER"`. -/
def bUtxoUpper : MNEEUtxo := ⟨"u", 0, ["A"], "TRANSFER", 9⟩

/-- The plan spending all 12 atomic units of `bUtxos`. -/
def bPlan : TransferPlan := ⟨bUtxos, ["A", "A"], "A", 0, 0, [⟨"R", 12⟩]⟩

/-- Status oracle: 59 `BROADCASTING` reads followed by `MINED`. -/
def readSeq59 : Nat → TransferStatus :=
  fun i => if i < 59 then ⟨"BROADCASTING"⟩ else ⟨"MINED"⟩

/-- Status oracle: `BROADCASTING` forever. -/
def readStuck : Nat → TransferStatus := fun _ => ⟨"BROADCASTING"⟩

/-- Status oracle: one `BROADCASTING` read, then `MINED`. -/
def readQuick : Nat → TransferStatus :=
  fun i => if i = 0 then ⟨"BROADCASTING"⟩ else ⟨"MINED"⟩

/-- Status oracle: two `BROADCASTING` reads, then `MINED`. -/
def readTwoB : Nat → TransferStatus :=
  fun i => if i < 2 then ⟨"BROADCASTING"⟩ else ⟨"MINED"⟩

/-- Status oracle: `FAILED` on the third read. -/
def readFailAt2 : Nat → TransferStatus :=
  fun i => if i = 2 then ⟨"FAILED"⟩ else ⟨"BROADCASTING"⟩

/-! ## Helper lemmas -/

theorem sumAmt_foldl (us : List MNEEUtxo) (t : Int) :
    us.foldl (fun s u => s + u.amt) t = t + sumAmt us := by
  induction us generalizing t with
  | nil => simp [sumAmt]
  | cons u rest ih =>
      simp only [sumAmt, List.foldl_cons] at *
      rw [ih (t + u.amt), ih (0 + u.amt)]
      ring

theorem sumAmt_cons (u : MNEEUtxo) (us : List MNEEUtxo) :
    sumAmt (u :: us) = u.amt + sumAmt us := by
  rw [show sumAmt (u :: us) = us.foldl (fun s v => s + v.amt) (0 + u.amt) from rfl,
    sumAmt_foldl]
  omega

/-- JS `a || b` folding: once the accumulator is truthy, it absorbs every
later operand. -/
theorem foldl_jsOr_absorb (tl : List MNEEUtxo) (a : String) (ha : a ≠ "") :
    tl.foldl (fun acc v => jsOr acc (owner0 v)) a = a := by
  induction tl with
  | nil => rfl
  | cons v rest ih =>
      rw [List.foldl_cons, show jsOr a (owner0 v) = a from by simp [jsOr, ha]]
      exact ih

/-- The incremental `changeAddress = changeAddress || utxo.owners[0]` fold
computes the owner of the first consumed source with a non-empty owner
string (`""` when there is none). -/
theorem changeAddrOf_eq_firstOwner (sel : List MNEEUtxo) :
    changeAddrOf sel = firstOwnerSpec sel := by
  induction sel with
  | nil => rfl
  | cons u rest ih =>
      unfold changeAddrOf at ih ⊢
      rw [List.foldl_cons]
      by_cases h : owner0 u = ""
      · rw [show jsOr "" (owner0 u) = "" from by simp [jsOr, h], ih,
          firstOwnerSpec, if_pos h]
      · rw [show jsOr "" (owner0 u) = owner0 u from by simp [jsOr],
          foldl_jsOr_absorb rest (owner0 u) h, firstOwnerSpec, if_neg h]

theorem sumAmt_nonneg (us : List MNEEUtxo) (h : ∀ u ∈ us, 0 ≤ u.amt) :
    0 ≤ sumAmt us := by
  induction us with
  | nil => simp [sumAmt]
  | cons u rest ih =>
      rw [sumAmt_cons]
      have h1 := h u (by simp)
      have h2 := ih (fun v hv => h v (by simp [hv]))
      omega

/-- Success inversion for the consumption loop: the consumed utxos form an
initial segment of the pool, the accumulated amount is the starting amount
plus their sum, the bound is reached, and it was not yet reached before the
last consumed utxo. -/
theorem selectLoop_some (need : Int) :
    ∀ (us : List MNEEUtxo) (t : Int) (sel : List MNEEUtxo) (tin : Int),
      selectLoop need us t = some (sel, tin) →
      (∃ rest, us = sel ++ rest) ∧
      tin = t + sumAmt sel ∧
      need ≤ tin ∧
      (sel = [] → need ≤ t) ∧
      (∀ (v : MNEEUtxo) (sel0 : List MNEEUtxo), sel = sel0 ++ [v] →
        t + sumAmt sel0 < need) := by
  intro us
  induction us with
  | nil =>
      intro t sel tin h
      simp only [selectLoop] at h
      split at h
      · exact absurd h (by simp)
      · rename_i hge
        obtain ⟨hsel, htin⟩ : [] = sel ∧ t = tin := by
          simpa using h
        subst hsel; subst htin
        refine ⟨⟨[], rfl⟩, by simp [sumAmt], by omega, fun _ => by omega, ?_⟩
        intro v sel0 habs
        exact absurd habs.symm (by simp)
  | cons u rest ih =>
      intro t sel tin h
      simp only [selectLoop] at h
      split at h
      · rename_i hlt
        cases hrec : selectLoop need rest (t + u.amt) with
        | none => rw [hrec] at h; exact absurd h (by simp)
        | some p =>
            obtain ⟨s, ti⟩ := p
            rw [hrec] at h
            obtain ⟨hsel, htin⟩ : u :: s = sel ∧ ti = tin := by
              simpa using h
            subst hsel; subst htin
            obtain ⟨⟨rest', hrest⟩, hsum, hreach, -, hmin⟩ :=
              ih (t + u.amt) s ti hrec
            refine ⟨⟨rest', by rw [hrest]; simp⟩, ?_, hreach, ?_, ?_⟩
            · rw [sumAmt_cons]; omega
            · intro habs; cases habs
            · intro v sel0 heq
              cases sel0 with
              | nil =>
                  obtain ⟨hv, hs⟩ : u = v ∧ s = [] := by simpa using heq
                  simpa [sumAmt] using hlt
              | cons a as =>
                  obtain ⟨ha, hs⟩ : u = a ∧ s = as ++ [v] := by simpa using heq
                  subst ha
                  have := hmin v as hs
                  rw [sumAmt_cons]
                  omega
      · rename_i hge
        obtain ⟨hsel, htin⟩ : [] = sel ∧ t = tin := by simpa using h
        subst hsel; subst htin
        refine ⟨⟨u :: rest, rfl⟩, by simp [sumAmt], by omega, fun _ => by omega, ?_⟩
        intro v sel0 habs
        exact absurd habs.symm (by simp)

/-- Failure inversion for the consumption loop: exhaustion means even the
whole pool falls short of the bound. -/
theorem selectLoop_none (need : Int) :
    ∀ (us : List MNEEUtxo) (t : Int), selectLoop need us t = none →
      t + sumAmt us < need := by
  intro us
  induction us with
  | nil =>
      intro t h
      simp only [selectLoop] at h
      split at h
      · rename_i hlt; simpa [sumAmt] using hlt
      · exact absurd h (by simp)
  | cons u rest ih =>
      intro t h
      simp only [selectLoop] at h
      split at h
      · rename_i hlt
        cases hrec : selectLoop need rest (t + u.amt) with
        | none =>
            have := ih (t + u.amt) hrec
            rw [sumAmt_cons]
            omega
        | some p => rw [hrec] at h; exact absurd h (by simp)
      · exact absurd h (by simp)

/-- Completeness of the failure case: when the amounts are non-negative and
the whole pool falls short of the bound, the loop exhausts the pool. -/
theorem selectLoop_none_of_short (need : Int) :
    ∀ (us : List MNEEUtxo) (t : Int), (∀ u ∈ us, 0 ≤ u.amt) →
      t + sumAmt us < need → selectLoop need us t = none := by
  intro us
  induction us with
  | nil =>
      intro t _ hshort
      simp only [sumAmt] at hshort
      simp only [selectLoop]
      rw [if_pos (by simpa using hshort)]
  | cons u rest ih =>
      intro t hnn hshort
      rw [sumAmt_cons] at hshort
      have hnn1 : 0 ≤ u.amt := hnn u (by simp)
      have hnn2 : ∀ v ∈ rest, 0 ≤ v.amt := fun v hv => hnn v (by simp [hv])
      have hrest_nn : 0 ≤ sumAmt rest := sumAmt_nonneg rest hnn2
      have hlt : t < need := by omega
      simp only [selectLoop]
      rw [if_pos hlt, ih (t + u.amt) hnn2 (by omega)]

/-- Inversion of a successful `transfer` run: the guards passed, a fee was
found, the consumption loop completed, and the returned plan is the one
assembled from its result. -/
theorem transfer_ok_inv (config : MNEEConfig)
    (utxoFetch : Except String (List MNEEUtxo)) (request : List SendMNEE)
    (trace : List NetCall) (plan : TransferPlan)
    (h : transfer (some config) utxoFetch request = (trace, TransferResult.ok plan)) :
    ¬ totalAmountOf request ≤ 0 ∧
    ¬ sumAmt (getUtxos defaultOps utxoFetch) < targetOf request config ∧
    ∃ fee sel tokensIn,
      feeOf request config (targetOf request config) = some fee ∧
      selectLoop (targetOf request config + fee) (getUtxos defaultOps utxoFetch) 0 =
        some (sel, tokensIn) ∧
      plan = buildPlan config request (targetOf request config) fee tokensIn sel := by
  simp only [transfer] at h
  split at h
  · exact absurd h (by simp)
  · rename_i hpos
    split at h
    · exact absurd h (by simp)
    · rename_i hbal
      split at h
      · exact absurd h (by simp)
      · rename_i fee hfee
        split at h
        · exact absurd h (by simp)
        · rename_i p sel tokensIn hsel
          obtain ⟨-, hplan⟩ : _ ∧ TransferResult.ok _ = TransferResult.ok plan := by
            simpa using h
          refine ⟨hpos, hbal, fee, sel, tokensIn, hfee, hsel, ?_⟩
          simpa using hplan.symm

/-- Everything after the recipient and fee outputs is the conditional change
output. -/
theorem outputsOf_drop (config : MNEEConfig) (request : List SendMNEE)
    (fee change : Int) (addr : String) :
    (outputsOf config request fee change addr).drop
      (request.length + (if 0 < fee then 1 else 0)) =
      (if 0 < change then [(⟨addr, change⟩ : TxOutput)] else []) := by
  unfold outputsOf
  have hlen : request.length + (if 0 < fee then 1 else 0) =
      (request.map
          (fun r => (⟨r.address, toAtomicAmount r.amount config.decimals⟩ : TxOutput))
        ++ (if 0 < fee then [(⟨config.feeAddress, fee⟩ : TxOutput)] else [])).length := by
    rw [List.length_append, List.length_map]
    split <;> simp
  rw [hlen, List.drop_left]

/-- Evaluation of the fixture transfer run (the spec's worked scenario):
target `1_000_000`, fee `1000`, both sources consumed, change `99_000`. -/
theorem w_transfer_eval :
    transfer (some wConfig) (Except.ok wUtxos) wRequest =
      (wTrace, TransferResult.ok wPlan) := by
  have htot : totalAmountOf wRequest = 10 := by simp [totalAmountOf, wRequest]
  have hatom : toAtomicAmount 10 5 = 1000000 := by
    norm_num [toAtomicAmount, jsRound, round_eq]
  have htar : targetOf wRequest wConfig = 1000000 := by
    simp [targetOf, wConfig, htot, hatom]
  simp only [transfer, htar, htot]
  norm_num [getUtxos, filterUtxos, strToLower, defaultOps, sumAmt, feeOf,
    selectLoop, buildPlan, outputsOf, changeAddrOf, jsOr, owner0, wConfig,
    wRequest, wUtxos, wPlan, wTrace, hatom]
  decide

/-- Evaluation of the empty-owner fixture run: both sources consumed, change
`2` addressed to `"B"`. -/
theorem cx_transfer_eval :
    transfer (some cxConfig) (Except.ok [cxUtxo1, cxUtxo2]) cxRequest =
      ([NetCall.configFetch, NetCall.utxoFetch, NetCall.beefFetch "c1",
        NetCall.beefFetch "c2"], TransferResult.ok cxPlan) := by
  have htot : totalAmountOf cxRequest = 10 := by simp [totalAmountOf, cxRequest]
  have hatom : toAtomicAmount 10 0 = 10 := by
    norm_num [toAtomicAmount, jsRound, round_eq]
  have htar : targetOf cxRequest cxConfig = 10 := by
    simp [targetOf, cxConfig, htot, hatom]
  simp only [transfer, htar, htot]
  norm_num [getUtxos, filterUtxos, strToLower, defaultOps, sumAmt, feeOf,
    selectLoop, buildPlan, outputsOf, changeAddrOf, jsOr, owner0, cxConfig,
    cxRequest, cxUtxo1, cxUtxo2, cxPlan, hatom]
  decide

/-- Evaluation of the two-recipient fixture run. -/
theorem w3_transfer_eval :
    transfer (some wConfig) (Except.ok wUtxos) w3Request =
      (wTrace, TransferResult.ok w3Plan) := by
  have htot : totalAmountOf w3Request = 10 := by
    simp [totalAmountOf, w3Request]
    norm_num
  have hatom : toAtomicAmount 10 5 = 1000000 := by
    norm_num [toAtomicAmount, jsRound, round_eq]
  have hatom4 : toAtomicAmount 4 5 = 400000 := by
    norm_num [toAtomicAmount, jsRound, round_eq]
  have hatom6 : toAtomicAmount 6 5 = 600000 := by
    norm_num [toAtomicAmount, jsRound, round_eq]
  have htar : targetOf w3Request wConfig = 1000000 := by
    simp [targetOf, wConfig, htot, hatom]
  simp only [transfer, htar, htot]
  norm_num [getUtxos, filterUtxos, strToLower, defaultOps, sumAmt, feeOf,
    selectLoop, buildPlan, outputsOf, changeAddrOf, jsOr, owner0, wConfig,
    w3Request, wUtxos, w3Plan, wTrace, hatom4, hatom6]
  decide

/-! ## Claim theorems -/

/-- C1: on every successful run, `transfer` consumes the (filtered) funding
sources in the order provided, each at most once (the selection is an initial
segment of the pool), accumulating until `sum(selected) ≥ target + fee`;
removing the last-selected source would violate this bound; and when the pool
falls short of `target + fee` the run fails with the insufficient-funds error
(`"Insufficient MNEE balance"`). -/
theorem transfer_select_greedy (config : MNEEConfig)
    (utxoFetch : Except String (List MNEEUtxo)) (request : List SendMNEE)
    (fee : Int)
    (hfee : feeOf request config (targetOf request config) = some fee) :
    (∀ trace plan,
      transfer (some config) utxoFetch request = (trace, TransferResult.ok plan) →
      plan.fee = fee ∧
      (∃ rest, getUtxos defaultOps utxoFetch = plan.selected ++ rest) ∧
      targetOf request config + fee ≤ sumAmt plan.selected ∧
      (∀ v sel0, plan.selected = sel0 ++ [v] →
        sumAmt sel0 < targetOf request config + fee)) ∧
    ((∀ u ∈ getUtxos defaultOps utxoFetch, 0 ≤ u.amt) →
      ¬ totalAmountOf request ≤ 0 →
      sumAmt (getUtxos defaultOps utxoFetch) < targetOf request config + fee →
      (transfer (some config) utxoFetch request).2 =
        TransferResult.error "Insufficient MNEE balance") := by
  constructor
  · intro trace plan h
    obtain ⟨hpos, hbal, fee', sel, tokensIn, hfee', hsel, hplan⟩ :=
      transfer_ok_inv config utxoFetch request trace plan h
    have hfe : fee' = fee := Option.some.inj (hfee'.symm.trans hfee)
    subst hfe
    obtain ⟨hseg, hsum, hreach, -, hmin⟩ := selectLoop_some _ _ _ _ _ hsel
    subst hplan
    refine ⟨rfl, hseg, ?_, ?_⟩
    · simp only [buildPlan]
      omega
    · intro v sel0 heq
      have := hmin v sel0 (by simpa [buildPlan] using heq)
      omega
  · intro hnn hpos hshort
    simp only [transfer]
    rw [if_neg hpos]
    by_cases hb : sumAmt (getUtxos defaultOps utxoFetch) < targetOf request config
    · rw [if_pos hb]
    · rw [if_neg hb, hfee]
      have hnone : selectLoop (targetOf request config + fee)
          (getUtxos defaultOps utxoFetch) 0 = none :=
        selectLoop_none_of_short _ _ _ hnn (by omega)
      simp [hnone]

/-- C1 witness: the spec's worked scenario, target `1_000_000`, fee `1000`,
pool `[600_000, 500_000]`. -/
theorem transfer_select_greedy_witness :
    feeOf wRequest wConfig (targetOf wRequest wConfig) = some 1000 ∧
    wPlan.fee = 1000 ∧
    (∃ rest, getUtxos defaultOps (Except.ok wUtxos) = wPlan.selected ++ rest) ∧
    targetOf wRequest wConfig + 1000 ≤ sumAmt wPlan.selected := by
  have htar : targetOf wRequest wConfig = 1000000 := by
    have htot : totalAmountOf wRequest = 10 := by simp [totalAmountOf, wRequest]
    simp only [targetOf, htot, wConfig]
    norm_num [toAtomicAmount, jsRound, round_eq]
  have hfee : feeOf wRequest wConfig (targetOf wRequest wConfig) = some 1000 := by
    rw [htar]; decide
  have h := (transfer_select_greedy wConfig (Except.ok wUtxos) wRequest 1000 hfee).1
    wTrace wPlan w_transfer_eval
  exact ⟨hfee, h.1, h.2.1, h.2.2.1⟩

/-- C2: on every successful run,
`sum(selected) = target + fee + change` holds exactly over the integers, and
the tail of the output list past the recipient and fee outputs is the change
output precisely when `change > 0` (and empty otherwise). -/
theorem transfer_change_conservation (config : MNEEConfig)
    (utxoFetch : Except String (List MNEEUtxo)) (request : List SendMNEE)
    (trace : List NetCall) (plan : TransferPlan)
    (h : transfer (some config) utxoFetch request = (trace, TransferResult.ok plan)) :
    sumAmt plan.selected = targetOf request config + plan.fee + plan.change ∧
    plan.outputs.drop (request.length + (if 0 < plan.fee then 1 else 0)) =
      (if 0 < plan.change then [(⟨plan.changeAddress, plan.change⟩ : TxOutput)] else []) := by
  obtain ⟨hpos, hbal, fee, sel, tokensIn, hfee, hsel, hplan⟩ :=
    transfer_ok_inv config utxoFetch request trace plan h
  obtain ⟨hseg, hsum, hreach, -, hmin⟩ := selectLoop_some _ _ _ _ _ hsel
  subst hplan
  constructor
  · simp only [buildPlan]
    omega
  · simpa only [buildPlan] using
      outputsOf_drop config request fee (tokensIn - targetOf request config - fee)
        (changeAddrOf sel)

/-- C2 witness: in the fixture run, `1_100_000 = 1_000_000 + 1000 + 99_000`
and the change output is emitted. -/
theorem transfer_change_conservation_witness :
    sumAmt wPlan.selected = targetOf wRequest wConfig + wPlan.fee + wPlan.change ∧
    wPlan.outputs.drop (wRequest.length + (if 0 < wPlan.fee then 1 else 0)) =
      (if 0 < wPlan.change then [(⟨wPlan.changeAddress, wPlan.change⟩ : TxOutput)] else []) :=
  transfer_change_conservation wConfig (Except.ok wUtxos) wRequest wTrace wPlan
    w_transfer_eval

/-- C3: on every successful run the output list is the recipients in request
order, then the fee output when `fee > 0`, then the change output when
`change > 0`; in particular for recipients `[A, B]` with positive fee and
change it is exactly `[A's output, B's output, fee output, change output]`. -/
theorem transfer_output_order (config : MNEEConfig)
    (utxoFetch : Except String (List MNEEUtxo)) (request : List SendMNEE)
    (trace : List NetCall) (plan : TransferPlan)
    (h : transfer (some config) utxoFetch request = (trace, TransferResult.ok plan)) :
    plan.outputs =
      request.map
        (fun r => (⟨r.address, toAtomicAmount r.amount config.decimals⟩ : TxOutput))
        ++ (if 0 < plan.fee then [(⟨config.feeAddress, plan.fee⟩ : TxOutput)] else [])
        ++ (if 0 < plan.change then [(⟨plan.changeAddress, plan.change⟩ : TxOutput)] else []) ∧
    (∀ a b, request = [a, b] → 0 < plan.fee → 0 < plan.change →
      plan.outputs =
        [⟨a.address, toAtomicAmount a.amount config.decimals⟩,
         ⟨b.address, toAtomicAmount b.amount config.decimals⟩,
         ⟨config.feeAddress, plan.fee⟩,
         ⟨plan.changeAddress, plan.change⟩]) := by
  obtain ⟨hpos, hbal, fee, sel, tokensIn, hfee, hsel, hplan⟩ :=
    transfer_ok_inv config utxoFetch request trace plan h
  subst hplan
  have hout : (buildPlan config request (targetOf request config) fee tokensIn sel).outputs =
      request.map
        (fun r => (⟨r.address, toAtomicAmount r.amount config.decimals⟩ : TxOutput))
        ++ (if 0 < fee then [(⟨config.feeAddress, fee⟩ : TxOutput)] else [])
        ++ (if 0 < (tokensIn - targetOf request config - fee) then
            [(⟨changeAddrOf sel, tokensIn - targetOf request config - fee⟩ : TxOutput)]
          else []) := rfl
  refine ⟨hout, ?_⟩
  intro a b hreq hf hc
  subst hreq
  simp only [buildPlan] at hf hc ⊢
  simp [outputsOf, if_pos hf, if_pos hc]
  omega

/-- C3 witness: a two-recipient request with positive fee and change yields
outputs `[A's output, B's output, fee output, change output]`. -/
theorem transfer_output_order_witness :
    (0 : Int) < w3Plan.fee ∧ (0 : Int) < w3Plan.change ∧
    w3Plan.outputs =
      [⟨"R1", 400000⟩, ⟨"R2", 600000⟩, ⟨"FEE", 1000⟩, ⟨"A", 99000⟩] := by
  have h := (transfer_output_order wConfig (Except.ok wUtxos) w3Request wTrace
      w3Plan w3_transfer_eval).2 ⟨"R1", 4⟩ ⟨"R2", 6⟩ rfl (by decide) (by decide)
  refine ⟨by decide, by decide, ?_⟩
  rw [h]
  norm_num [wConfig, toAtomicAmount, jsRound, round_eq, w3Plan]

/-- C4 amended: the computed fee is `0` whenever some recipient address
equals the burn address (regardless of amount); otherwise it is the fee of
the first fee tier whose `[min, max]` range contains the target, any such
tier does contain the target, and the lookup yields nothing exactly when no
tier contains the target; in that case, provided the balance pre-check
passes (pool total ≥ target), `transfer` fails with
`"Fee ranges inadequate"`, an error distinct from the insufficient-funds
error — while a pool short of the target is reported as
`"Insufficient MNEE balance"` before the fee schedule is consulted. -/
theorem transfer_fee_rules (config : MNEEConfig)
    (utxoFetch : Except String (List MNEEUtxo)) (request : List SendMNEE)
    (target : Int) :
    ((∃ r ∈ request, r.address = config.burnAddress) →
      feeOf request config target = some 0) ∧
    ((¬ ∃ r ∈ request, r.address = config.burnAddress) →
      feeOf request config target =
        (config.fees.find? (fun f => decide (f.min ≤ target ∧ target ≤ f.max))).map
          (fun f => f.fee) ∧
      (∀ f, config.fees.find? (fun f => decide (f.min ≤ target ∧ target ≤ f.max)) =
          some f → f.min ≤ target ∧ target ≤ f.max) ∧
      (feeOf request config target = none ↔
        ∀ f ∈ config.fees, ¬ (f.min ≤ target ∧ target ≤ f.max))) ∧
    (¬ totalAmountOf request ≤ 0 →
      ¬ sumAmt (getUtxos defaultOps utxoFetch) < targetOf request config →
      feeOf request config (targetOf request config) = none →
      (transfer (some config) utxoFetch request).2 =
        TransferResult.error "Fee ranges inadequate") ∧
    (¬ totalAmountOf request ≤ 0 →
      sumAmt (getUtxos defaultOps utxoFetch) < targetOf request config →
      (transfer (some config) utxoFetch request).2 =
        TransferResult.error "Insufficient MNEE balance") ∧
    (TransferResult.error "Fee ranges inadequate" ≠
      TransferResult.error "Insufficient MNEE balance") := by
  refine ⟨?_, ?_, ?_, ?_, by simp⟩
  · rintro ⟨r, hr, ha⟩
    have hb : (request.any fun r => decide (r.address = config.burnAddress)) = true := by
      simp only [List.any_eq_true, decide_eq_true_eq]
      exact ⟨r, hr, ha⟩
    simp [feeOf, hb]
  · intro hnb
    have hb : (request.any fun r => decide (r.address = config.burnAddress)) = false := by
      rw [← Bool.not_eq_true]
      intro hany
      rw [List.any_eq_true] at hany
      obtain ⟨r, hr, ha⟩ := hany
      exact hnb ⟨r, hr, of_decide_eq_true ha⟩
    refine ⟨by simp [feeOf, hb], ?_, ?_⟩
    · intro f hf
      have h2 := List.find?_some hf
      simpa using h2
    · simp only [feeOf, hb, Bool.false_eq_true, if_false, Option.map_eq_none',
        List.find?_eq_none, decide_eq_true_eq]
  · intro hpos hbal hnone
    simp only [transfer]
    rw [if_neg hpos, if_neg hbal, hnone]
  · intro hpos hb
    simp only [transfer]
    rw [if_neg hpos, if_pos hb]

/-- C4 witness: a burn-destination request yields fee `0` even for an amount
outside every fee tier. -/
theorem transfer_fee_rules_witness :
    (∃ r ∈ [(⟨"BURN", 3⟩ : SendMNEE)], r.address = wConfig.burnAddress) ∧
    feeOf [(⟨"BURN", 3⟩ : SendMNEE)] wConfig 123456789 = some 0 := by
  have hb : ∃ r ∈ [(⟨"BURN", 3⟩ : SendMNEE)], r.address = wConfig.burnAddress :=
    ⟨⟨"BURN", 3⟩, by simp, rfl⟩
  exact ⟨hb, (transfer_fee_rules wConfig (Except.ok []) [⟨"BURN", 3⟩] 123456789).1 hb⟩

/-- C4 counterexample: with no burn recipient, a target (1000) outside the
only fee tier (`[0, 100]`) and a pool holding only 50, the balance pre-check
fires first: the run fails with `"Insufficient MNEE balance"`, not with the
fee-schedule-gap error — refuting the unconditional "fails with
FeeScheduleGap". -/
theorem fee_gap_shadowed_counterexample :
    (∀ r ∈ c4Request, r.address ≠ c4Config.burnAddress) ∧
    feeOf c4Request c4Config (targetOf c4Request c4Config) = none ∧
    (transfer (some c4Config) (Except.ok c4Utxos) c4Request).2 =
      TransferResult.error "Insufficient MNEE balance" ∧
    (transfer (some c4Config) (Except.ok c4Utxos) c4Request).2 ≠
      TransferResult.error "Fee ranges inadequate" := by
  have htot : totalAmountOf c4Request = 1000 := by
    simp [totalAmountOf, c4Request]
  have hatom : toAtomicAmount 1000 0 = 1000 := by
    norm_num [toAtomicAmount, jsRound, round_eq]
  have htar : targetOf c4Request c4Config = 1000 := by
    simp [targetOf, c4Config, htot, hatom]
  have heval : (transfer (some c4Config) (Except.ok c4Utxos) c4Request).2 =
      TransferResult.error "Insufficient MNEE balance" := by
    simp only [transfer, htar, htot]
    norm_num [getUtxos, filterUtxos, strToLower, defaultOps, sumAmt, c4Config,
      c4Utxos]
    decide
  refine ⟨?_, ?_, heval, ?_⟩
  · intro r hr
    rcases List.mem_singleton.mp hr with rfl
    decide
  · rw [htar]; decide
  · rw [heval]; decide

/-- C5 counterexample: when the first consumed funding source's `owners[0]`
is the empty string, the change output is addressed to the second consumed
source's owner (`"B"`), not the first's — refuting "it is never any other
address". -/
theorem change_dest_counterexample :
    (transfer (some cxConfig) (Except.ok [cxUtxo1, cxUtxo2]) cxRequest).2 =
      TransferResult.ok cxPlan ∧
    cxPlan.selected = [cxUtxo1, cxUtxo2] ∧
    owner0 cxUtxo1 = "" ∧
    0 < cxPlan.change ∧
    cxPlan.changeAddress = "B" ∧
    cxPlan.changeAddress ≠ owner0 cxUtxo1 := by
  refine ⟨by rw [cx_transfer_eval], by decide, by decide, by decide, by decide,
    by decide⟩

/-- C5 amended: on every successful run, the change destination is the owner
address of the first consumed funding source whose owner string is non-empty
(the JS `||` coalescing skips falsy entries; it is `""` when every consumed
owner is empty) — formalised by `firstOwnerSpec`; in particular, whenever the
first consumed source's owner address is non-empty, the change output is
addressed to it. -/
theorem transfer_change_dest_amended (config : MNEEConfig)
    (utxoFetch : Except String (List MNEEUtxo)) (request : List SendMNEE)
    (trace : List NetCall) (plan : TransferPlan)
    (h : transfer (some config) utxoFetch request = (trace, TransferResult.ok plan)) :
    plan.changeAddress = firstOwnerSpec plan.selected ∧
    (∀ u tl, plan.selected = u :: tl → owner0 u ≠ "" →
      plan.changeAddress = owner0 u) := by
  obtain ⟨hpos, hbal, fee, sel, tokensIn, hfee, hselLoop, hplan⟩ :=
    transfer_ok_inv config utxoFetch request trace plan h
  subst hplan
  have hgen : changeAddrOf sel = firstOwnerSpec sel := changeAddrOf_eq_firstOwner sel
  refine ⟨hgen, ?_⟩
  intro u tl hsel hne
  have hsel' : sel = u :: tl := by simpa [buildPlan] using hsel
  subst hsel'
  show changeAddrOf (u :: tl) = owner0 u
  rw [hgen, firstOwnerSpec, if_neg hne]

/-- C5-amended witness: in the empty-first-owner run, the change destination
equals `firstOwnerSpec` of the consumed sources, which skips the empty owner
and yields `"B"`. -/
theorem transfer_change_dest_amended_witness :
    cxPlan.changeAddress = firstOwnerSpec cxPlan.selected ∧
    firstOwnerSpec cxPlan.selected = "B" :=
  ⟨(transfer_change_dest_amended cxConfig (Except.ok [cxUtxo1, cxUtxo2]) cxRequest
      [NetCall.configFetch, NetCall.utxoFetch, NetCall.beefFetch "c1",
        NetCall.beefFetch "c2"] cxPlan cx_transfer_eval).1,
    by decide⟩

/-- C6 counterexample: a zero-recipient request is rejected with the
invalid-request error, but the config fetch — a network call — has already
happened by then: the call trace at rejection is `[configFetch]`, not
empty. -/
theorem invalid_request_after_config_counterexample :
    transfer (some wConfig) (Except.ok []) [] =
      ([NetCall.configFetch], TransferResult.error "Invalid amount") ∧
    [NetCall.configFetch] ≠ ([] : List NetCall) := by
  constructor
  · simp only [transfer]
    rw [if_pos (by simp [totalAmountOf])]
  · simp

/-- C6 amended: a request with zero recipients or non-positive total decimal
amount is rejected with the invalid-request error after the config fetch but
before any other network call: the trace at rejection is exactly
`[configFetch]` (no funding-source or ancestor fetch). -/
theorem transfer_invalid_request_amended (config : MNEEConfig)
    (utxoFetch : Except String (List MNEEUtxo)) (request : List SendMNEE)
    (h : request = [] ∨ totalAmountOf request ≤ 0) :
    transfer (some config) utxoFetch request =
      ([NetCall.configFetch], TransferResult.error "Invalid amount") := by
  have hle : totalAmountOf request ≤ 0 := by
    rcases h with h | h
    · subst h; simp [totalAmountOf]
    · exact h
  simp only [transfer]
  rw [if_pos hle]

/-- C6-amended witness: the zero-recipient request. -/
theorem transfer_invalid_request_amended_witness :
    (([] : List SendMNEE) = [] ∨ totalAmountOf [] ≤ 0) ∧
    transfer (some wConfig) (Except.ok wUtxos) [] =
      ([NetCall.configFetch], TransferResult.error "Invalid amount") :=
  ⟨Or.inl rfl,
    transfer_invalid_request_amended wConfig (Except.ok wUtxos) [] (Or.inl rfl)⟩

/-- C7 counterexample: on a transport error the funding-source fetch returns
the empty list — indistinguishable from a successful fetch of an empty set —
and the balance operation returns `0`; no failure is surfaced. -/
theorem index_unavailable_counterexample :
    getUtxos defaultOps (Except.error "network failure") = [] ∧
    getUtxos defaultOps (Except.error "network failure") =
      getUtxos defaultOps (Except.ok []) ∧
    getBalance (some wConfig) (Except.error "network failure") = 0 := by
  refine ⟨rfl, by decide, rfl⟩

/-- C7 amended: on every transport error the funding-source fetch silently
substitutes the empty list and the balance operation silently substitutes a
zero balance (the `catch` blocks log and return defaults); no
`IndexUnavailable`-style failure is propagated to the caller. -/
theorem fetch_error_returns_default_amended (e : String) (ops : List String)
    (config : MNEEConfig) :
    getUtxos ops (Except.error e) = [] ∧
    getBalance (some config) (Except.error e) = 0 :=
  ⟨rfl, rfl⟩

/-- If the first `j` reads are `BROADCASTING` and the `j`-th read is not,
and `j` is below the remaining attempts, the loop returns the `j`-th read
after exactly `j` sleeps. -/
theorem pollAux_returns (read : Nat → TransferStatus) (cb : Bool) :
    ∀ (j fuel i : Nat) (last : Option String) (cbLog : List TransferStatus)
      (sleeps : List Nat), j < fuel →
      (∀ k, k < j → (read (i + k)).status = "BROADCASTING") →
      (read (i + j)).status ≠ "BROADCASTING" →
      ∃ log', pollAux read cb fuel i last cbLog sleeps =
        ⟨PollResult.ok (read (i + j)), log',
          sleeps ++ List.replicate j pollDelayMs⟩ := by
  intro j
  induction j with
  | zero =>
      intro fuel i last cbLog sleeps hlt hb hstop
      cases fuel with
      | zero => omega
      | succ f =>
          simp only [pollAux]
          rw [if_pos (show (read i).status ≠ "BROADCASTING" from by
            simpa using hstop)]
          exact ⟨if (cb && decide (some (read i).status ≠ last)) = true then
            cbLog ++ [read i] else cbLog, by simp⟩
  | succ j ih =>
      intro fuel i last cbLog sleeps hlt hb hstop
      cases fuel with
      | zero => omega
      | succ f =>
          have hb0 : (read i).status = "BROADCASTING" := by
            have h0 := hb 0 (Nat.succ_pos j)
            simpa using h0
          simp only [pollAux]
          rw [if_neg (by simp [hb0])]
          obtain ⟨log', hrec⟩ := ih f (i + 1)
            (if (cb && decide (some (read i).status ≠ last)) = true then
              some (read i).status else last)
            (if (cb && decide (some (read i).status ≠ last)) = true then
              cbLog ++ [read i] else cbLog)
            (sleeps ++ [pollDelayMs]) (by omega)
            (fun k hk => by
              have h3 := hb (k + 1) (by omega)
              have h4 : i + (k + 1) = i + 1 + k := by omega
              rwa [h4] at h3)
            (by
              have h4 : i + (j + 1) = i + 1 + j := by omega
              rwa [h4] at hstop)
          refine ⟨log', ?_⟩
          rw [hrec]
          have h4 : i + 1 + j = i + (j + 1) := by omega
          rw [h4]
          simp [List.replicate_succ, List.append_assoc]

/-- The reducer of `getBalance`, started anywhere, adds exactly the amounts of
the case-sensitively `"transfer"`-tagged utxos. -/
theorem balanceAmount_foldl (us : List MNEEUtxo) (t : Int) :
    us.foldl (fun acc u => if u.op = "transfer" then acc + u.amt else acc) t =
      t + sumAmt (us.filter (fun u => u.op = "transfer")) := by
  induction us generalizing t with
  | nil => simp [sumAmt]
  | cons u rest ih =>
      by_cases h : u.op = "transfer"
      · rw [List.foldl_cons, if_pos h, ih,
          List.filter_cons_of_pos (by simp [h]), sumAmt_cons]
        omega
      · rw [List.foldl_cons, if_neg h, ih,
          List.filter_cons_of_neg (by simp [h])]

/-- Evaluation of the mixed-operation fixture: all 12 atomic units of
`bUtxos` (7 from `deploy+mint`, 5 from `transfer`) are spendable. -/
theorem b_transfer_eval :
    transfer (some cxConfig) (Except.ok bUtxos) [⟨"R", 12⟩] =
      ([NetCall.configFetch, NetCall.utxoFetch, NetCall.beefFetch "d",
        NetCall.beefFetch "t"], TransferResult.ok bPlan) := by
  have htot : totalAmountOf [(⟨"R", 12⟩ : SendMNEE)] = 12 := by
    simp [totalAmountOf]
  have hatom : toAtomicAmount 12 0 = 12 := by
    norm_num [toAtomicAmount, jsRound, round_eq]
  have htar : targetOf [(⟨"R", 12⟩ : SendMNEE)] cxConfig = 12 := by
    simp [targetOf, cxConfig, htot, hatom]
  simp only [transfer, htar, htot]
  norm_num [getUtxos, filterUtxos, strToLower, defaultOps, sumAmt, feeOf,
    selectLoop, buildPlan, outputsOf, changeAddrOf, jsOr, owner0, cxConfig,
    bUtxos, bPlan, hatom]
  decide

/-- C8: with the cap of 60 attempts, 59 `BROADCASTING` reads followed by
`MINED` return `MINED` on the 60th read (59 sleeps) without timing out; 60
`BROADCASTING` reads fail with the timeout error; and in general polling
returns the first read whose status is not `BROADCASTING` whenever it occurs
within the cap. -/
theorem pollForTxStatus_termination :
    (pollForTxStatus readSeq59 false).result = PollResult.ok ⟨"MINED"⟩ ∧
    (pollForTxStatus readSeq59 false).sleeps.length = 59 ∧
    (pollForTxStatus readStuck false).result =
      PollResult.timeout "Transaction status polling timed out after 5 minutes" ∧
    (∀ (read : Nat → TransferStatus) (cb : Bool) (j : Nat), j < maxAttempts →
      (∀ i, i < j → (read i).status = "BROADCASTING") →
      (read j).status ≠ "BROADCASTING" →
      (pollForTxStatus read cb).result = PollResult.ok (read j) ∧
      (pollForTxStatus read cb).sleeps.length = j) := by
  refine ⟨by decide, by decide, by decide, ?_⟩
  intro read cb j hj hb hstop
  obtain ⟨log', hrec⟩ := pollAux_returns read cb j maxAttempts 0 none [] [] hj
    (fun k hk => by simpa using hb k hk) (by simpa using hstop)
  unfold pollForTxStatus
  rw [hrec]
  simp

/-- C8 witness: a `FAILED` status on the third read is returned after two
sleeps. -/
theorem pollForTxStatus_termination_witness :
    (2 < maxAttempts ∧ (readFailAt2 2).status ≠ "BROADCASTING") ∧
    (pollForTxStatus readFailAt2 true).result = PollResult.ok (readFailAt2 2) ∧
    (pollForTxStatus readFailAt2 true).sleeps.length = 2 := by
  refine ⟨⟨by decide, by decide⟩, ?_⟩
  exact (pollForTxStatus_termination).2.2.2 readFailAt2 true 2 (by decide)
    (fun i hi => by interval_cases i <;> decide) (by decide)

/-- C9: the polling loop sleeps `1000` milliseconds between reads — not the 5
seconds its own comments ("5 minutes with 5 second intervals", "Wait 5
seconds before next poll") and the claim state.  The edge-triggered callback
part does hold: two consecutive `BROADCASTING` reads fire the callback only
once. -/
theorem poll_delay_is_1000ms :
    pollDelayMs = 1000 ∧ pollDelayMs ≠ 5000 ∧
    pollForTxStatus readQuick true =
      ⟨PollResult.ok ⟨"MINED"⟩, [⟨"BROADCASTING"⟩, ⟨"MINED"⟩], [1000]⟩ ∧
    (pollForTxStatus readTwoB true).callbackLog =
      [⟨"BROADCASTING"⟩, ⟨"MINED"⟩] := by
  exact ⟨rfl, by decide, by decide, by decide⟩

/-- C10: the balance sums exactly the fetched funding sources whose operation
kind is the case-sensitive string `"transfer"`; `deploy+mint` sources pass
the (lower-casing) fetch filter but contribute zero, and an upper-case
`"TRANSFER"` source passes the fetch filter yet is excluded from the balance;
hence the reported balance (5) is strictly less than the total the transfer
operation spends from the same sources (12). -/
theorem getBalance_case_sensitive (data : List MNEEUtxo) :
    balanceAmount data = sumAmt (data.filter (fun u => u.op = "transfer")) ∧
    getUtxos defaultOps (Except.ok bUtxos) = bUtxos ∧
    getBalance (some cxConfig) (Except.ok bUtxos) = 5 ∧
    sumAmt (getUtxos defaultOps (Except.ok bUtxos)) = 12 ∧
    (5 : Int) < 12 ∧
    (transfer (some cxConfig) (Except.ok bUtxos) [⟨"R", 12⟩]).2 =
      TransferResult.ok bPlan ∧
    sumAmt bPlan.selected = 12 ∧
    getUtxos defaultOps (Except.ok [bUtxoUpper]) = [bUtxoUpper] ∧
    getBalance (some cxConfig) (Except.ok [bUtxoUpper]) = 0 := by
  refine ⟨?_, by decide, by decide, by decide, by decide, ?_, by decide,
    by decide, by decide⟩
  · have h := balanceAmount_foldl data 0
    unfold balanceAmount
    omega
  · rw [b_transfer_eval]

/-- C7-amended witness: a concrete transport error. -/
theorem fetch_error_returns_default_amended_witness :
    getUtxos defaultOps (Except.error "network failure") = [] ∧
    getBalance (some wConfig) (Except.error "network failure") = 0 :=
  fetch_error_returns_default_amended "network failure" defaultOps wConfig

/-- C10 witness: the mixed-operation fixture instantiates the general sum
characterisation. -/
theorem getBalance_case_sensitive_witness :
    balanceAmount bUtxos = sumAmt (bUtxos.filter (fun u => u.op = "transfer")) :=
  (getBalance_case_sensitive bUtxos).1

end Mnee

